import Mathlib

/-!
Verification of the Othello rules engine (crates `othello-lib` / `othello-cli`).

The definitions below are a shallow embedding of the Rust sources:
`src/othello-lib/src/disc.rs`, `board.rs`, `game.rs`, `player.rs`.
Machine integers become `Nat`/`Int` (the Rust code never overflows: indices
stay below 64 and coordinate steps are done in `isize` exactly as
`step_coord` does here in `Int`), fallible operations return `Except`/`Option`,
and `&mut self` methods are embedded as state-passing functions returning the
result value together with the updated board, so that the board left behind by
a failing call is observable.

One caveat is recorded where it matters: `disc.rs` declares
`opposite : Disc -> Option<Disc>` (with a third variant `Empty`), while
`board.rs` and `game.rs` consume `opposite()` as a plain `Disc` and match on
`Disc` exhaustively over Black/White only; the crate does not type-check as
written.  The embedding keeps `disc.rs` verbatim and threads the `Option`
monadically at each use site, which coincides with the evident behaviour for
the Black/White values that actually occur.
-/

/-- `disc.rs`: `enum Disc { Black, White, Empty }`. -/
inductive Disc where
  | Black
  | White
  | Empty
deriving DecidableEq, Repr, Fintype

/-- `disc.rs`: `Disc::opposite`, returning `Option<Disc>` (`Empty` has no opposite). -/
def Disc.opposite : Disc → Option Disc
  | .Black => some .White
  | .White => some .Black
  | .Empty => none

/-- `board.rs`: `enum BoardError`. -/
inductive BoardError where
  | OutOfBounds
  | SquareOccupied
  | InvalidMove
deriving DecidableEq, Repr

/-- `board.rs`: `enum Direction`, the 8 compass directions. -/
inductive Direction where
  | North
  | NorthEast
  | East
  | SouthEast
  | South
  | SouthWest
  | West
  | NorthWest
deriving DecidableEq, Repr, Fintype

/-- `board.rs`: `Direction::delta_row_col`. -/
def Direction.delta_row_col : Direction → Int × Int
  | .North => (-1, 0)
  | .NorthEast => (-1, 1)
  | .East => (0, 1)
  | .SouthEast => (1, 1)
  | .South => (1, 0)
  | .SouthWest => (1, -1)
  | .West => (0, -1)
  | .NorthWest => (-1, -1)

/-- `board.rs`: `Direction::ALL`. -/
def Direction.ALL : List Direction :=
  [.North, .NorthEast, .East, .SouthEast, .South, .SouthWest, .West, .NorthWest]

/-- `board.rs`: `struct Board { squares: [Option<Disc>; 64] }`.  The fixed-size
array is embedded as a list; every access goes through the same bounds checks
the Rust `get`/`get_mut` calls perform, so no theorem silently assumes the
length.  Concrete boards built by `Board.new` have length 64. -/
structure Board where
  squares : List (Option Disc)
deriving DecidableEq, Repr

def Board.BOARD_WIDTH : Nat := 8

def Board.BOARD_HEIGHT : Nat := 8

def Board.BOARD_MAX_DIM : Nat := 8

def Board.BOARD_SURFACE : Nat := Board.BOARD_WIDTH * Board.BOARD_HEIGHT

/-- `board.rs`: `Board::index` (the `&self` receiver is unused by the source as well). -/
def Board.index (_ : Board) (row col : Nat) : Except BoardError Nat :=
  if Board.BOARD_HEIGHT ≤ row then .error .OutOfBounds
  else if Board.BOARD_WIDTH ≤ col then .error .OutOfBounds
  else .ok (Board.BOARD_WIDTH * row + col)

/-- `board.rs`: `Board::row_col`. -/
def Board.row_col (_ : Board) (index : Nat) : Except BoardError (Nat × Nat) :=
  if Board.BOARD_SURFACE ≤ index then .error .OutOfBounds
  else .ok (index / Board.BOARD_WIDTH, index % Board.BOARD_WIDTH)

/-- `board.rs`: `Board::step_coord` (`isize` arithmetic embedded as `Int`). -/
def Board.step_coord (coord : Nat) (delta : Int) (limit : Nat) : Option Nat :=
  let next : Int := (coord : Int) + delta
  if next < 0 ∨ (limit : Int) ≤ next then none else some next.toNat

/-- `board.rs`: `Board::step_row`. -/
def Board.step_row (_ : Board) (row : Nat) (delta : Int) : Option Nat :=
  Board.step_coord row delta Board.BOARD_HEIGHT

/-- `board.rs`: `Board::step_col`. -/
def Board.step_col (_ : Board) (col : Nat) (delta : Int) : Option Nat :=
  Board.step_coord col delta Board.BOARD_WIDTH

/-- `board.rs`: `Board::next_index`. -/
def Board.next_index (b : Board) (index : Nat) (dir : Direction) : Option Nat := do
  let rc ← (b.row_col index).toOption
  let d := dir.delta_row_col
  let next_row ← b.step_row rc.1 d.1
  let next_col ← b.step_col rc.2 d.2
  (b.index next_row next_col).toOption

/-- `board.rs`: `Board::get_field` (`squares.get(index).copied().ok_or(OutOfBounds)`). -/
def Board.get_field (b : Board) (index : Nat) : Except BoardError (Option Disc) :=
  match b.squares[index]? with
  | some c => .ok c
  | none => .error .OutOfBounds

/-- `board.rs`: `Board::set_field`.  The `&mut self` mutation is embedded by
returning the result together with the board left behind. -/
def Board.set_field (b : Board) (index : Nat) (disc : Disc) :
    Except BoardError Unit × Board :=
  if index < b.squares.length then (.ok (), ⟨b.squares.set index (some disc)⟩)
  else (.error .OutOfBounds, b)

/-- `board.rs`: the `while let` loop of `Board::flips_in_direction`, with an
explicit fuel argument.  The loop advances one board cell per iteration along a
fixed direction, so it runs at most 7 times; the call site passes fuel 64
(`BOARD_SURFACE`), which the ray-length lemmas below show is never exhausted. -/
def Board.flipsLoop (b : Board) (disc opponent : Disc) (dir : Direction) :
    Nat → Nat → List Nat → Option (List Nat)
  | 0, _, _ => none
  | fuel + 1, index, flips =>
    match b.next_index index dir with
    | none => none
    | some next =>
      match (b.get_field next).toOption with
      | none => none
      | some cell =>
        match cell with
        | some d =>
          if d = opponent then b.flipsLoop disc opponent dir fuel next (flips ++ [next])
          else if d = disc then some flips
          else none
        | none => none

/-- `board.rs`: `Board::flips_in_direction`.  `disc.opposite()` returns
`Option<Disc>` in `disc.rs`, so it is threaded monadically (see the header
note); the `ArrayVec<usize, 8>` accumulator is a list (its capacity is never
reached: a ray holds at most 7 cells). -/
def Board.flips_in_direction (b : Board) (start : Nat) (disc : Disc)
    (dir : Direction) : Option (List Nat) := do
  let opponent ← disc.opposite
  let index ← b.next_index start dir
  let cell ← (b.get_field index).toOption
  if cell ≠ some opponent then none
  else b.flipsLoop disc opponent dir 64 index [index]

/-- `board.rs`: the direction fold inside `Board::all_flips`.
`all.try_extend_from_slice(&flips).ok()?` fails exactly when the
`ArrayVec<usize, 64>` capacity would be exceeded, hence the explicit length
check (shown unreachable below: each direction contributes at most 7 cells). -/
def Board.allFlipsAux (b : Board) (start : Nat) (disc : Disc) :
    List Direction → List Nat → Option (List Nat)
  | [], all => some all
  | dir :: rest, all =>
    match b.flips_in_direction start disc dir with
    | some flips =>
      if all.length + flips.length ≤ Board.BOARD_SURFACE then
        b.allFlipsAux start disc rest (all ++ flips)
      else none
    | none => b.allFlipsAux start disc rest all

/-- `board.rs`: `Board::all_flips`. -/
def Board.all_flips (b : Board) (start : Nat) (disc : Disc) : Option (List Nat) :=
  match b.allFlipsAux start disc Direction.ALL [] with
  | none => none
  | some all => if all.isEmpty then none else some all

/-- `board.rs`: the `for index in flips` loop of `Board::apply_move`, with the
`?` on each `set_field` propagating the error and keeping the board reached so
far (mutation in place). -/
def Board.applyFlips (b : Board) (disc : Disc) :
    List Nat → Except BoardError Unit × Board
  | [] => (.ok (), b)
  | i :: rest =>
    match b.set_field i disc with
    | (.ok _, b2) => b2.applyFlips disc rest
    | (.error e, b2) => (.error e, b2)

/-- `board.rs`: `Board::apply_move`. -/
def Board.apply_move (b : Board) (start : Nat) (disc : Disc) :
    Except BoardError Unit × Board :=
  match b.get_field start with
  | .ok none =>
    match b.all_flips start disc with
    | none => (.error .InvalidMove, b)
    | some flips =>
      match b.set_field start disc with
      | (.ok _, b2) => b2.applyFlips disc flips
      | (.error e, b2) => (.error e, b2)
  | .ok (some _) => (.error .SquareOccupied, b)
  | .error _ => (.error .OutOfBounds, b)

/-- `board.rs`: `Board::is_valid_move`. -/
def Board.is_valid_move (b : Board) (start : Nat) (disc : Disc) : Bool :=
  match b.get_field start with
  | .ok none => (b.all_flips start disc).isSome
  | _ => false

/-- `board.rs`: `Board::count_discs`. -/
def Board.count_discs (b : Board) (disc : Disc) : Nat :=
  b.squares.countP (fun s => s = some disc)

/-- `board.rs`: `Board::new`.  The two `.expect` calls cannot fire (the center
coordinates are in range); their panic arms are embedded as identity. -/
def Board.new : Board :=
  let board : Board := ⟨List.replicate Board.BOARD_SURFACE none⟩
  let mid_row := Board.BOARD_HEIGHT / 2
  let mid_col := Board.BOARD_WIDTH / 2
  let init : List (Nat × Nat × Disc) :=
    [(mid_row, mid_col, .White), (mid_row - 1, mid_col, .Black),
     (mid_row, mid_col - 1, .Black), (mid_row - 1, mid_col - 1, .White)]
  init.foldl
    (fun bd rcd =>
      match bd.index rcd.1 rcd.2.1 with
      | .ok idx => (bd.set_field idx rcd.2.2).2
      | .error _ => bd)
    board

/-- `player.rs`: `trait Player { fn select_move(&self, board: &Board, disc: Disc) -> usize }`,
embedded as its one capability. -/
abbrev Player := Board → Disc → Nat

/-- `game.rs`: `enum GameError`. -/
inductive GameError where
  | InvalidMove
  | BoardError (e : BoardError)
deriving DecidableEq, Repr

/-- `game.rs`: `enum GameOutcome`. -/
inductive GameOutcome where
  | Tie
  | Winner (d : Disc)
deriving DecidableEq, Repr

/-- `game.rs`: `struct Game`. -/
structure Game where
  board : Board
  black : Player
  white : Player
  current : Disc

/-- Modelled from the spec: `Board::valid_moves` is called by `game.rs` (and by
the CLI crate) but its definition is not among the sources; spec section 4.2
describes it as "all indices where `is_valid_move` holds" for the given side,
over the 64-cell board. -/
def Board.valid_moves (b : Board) (disc : Disc) : List Nat :=
  (List.range Board.BOARD_SURFACE).filter (fun i => b.is_valid_move i disc)

/-- `game.rs`: `Game::new`. -/
def Game.new (black white : Player) : Game :=
  { board := Board.new, black := black, white := white, current := .Black }

/-- `game.rs`: `Game::current_disc`. -/
def Game.current_disc (g : Game) : Disc :=
  g.current

/-- `game.rs`: `Game::current_player`.  The source matches only `Black` and
`White` (with the three-valued `disc.rs` this match is not even exhaustive);
the `Empty` arm below is arbitrary and unreachable in a run. -/
def Game.current_player (g : Game) : Player :=
  match g.current_disc with
  | .Black => g.black
  | .White => g.white
  | .Empty => g.black

/-- `game.rs`: `Game::available_moves`. -/
def Game.available_moves (g : Game) : List Nat :=
  g.board.valid_moves g.current

/-- `game.rs`: `Game::forced_pass`. -/
def Game.forced_pass (g : Game) : Bool :=
  g.available_moves.isEmpty

/-- `game.rs`: `Game::apply_current`. -/
def Game.apply_current (g : Game) (choice : Nat) : Except GameError Unit × Game :=
  let legal := g.board.valid_moves g.current
  if choice ∈ legal then
    match g.board.apply_move choice g.current with
    | (.ok _, b2) => (.ok (), { g with board := b2 })
    | (.error e, b2) => (.error (.BoardError e), { g with board := b2 })
  else (.error .InvalidMove, g)

/-- `game.rs`: `Game::advance_turn` (`self.current = self.current.opposite()`;
the `Option` from `disc.rs` is threaded as in the header note, keeping the
current side when `opposite` yields nothing). -/
def Game.advance_turn (g : Game) : Game :=
  { g with current := g.current.opposite.getD g.current }

/-- `game.rs`: `Game::is_over`. -/
def Game.is_over (g : Game) : Bool :=
  (g.board.valid_moves .Black).isEmpty && (g.board.valid_moves .White).isEmpty

/-- `game.rs`: `Game::outcome` (`b.cmp(&w)`: Greater means strictly more Black discs). -/
def Game.outcome (g : Game) : Option GameOutcome :=
  if g.is_over then
    let b := g.board.count_discs .Black
    let w := g.board.count_discs .White
    if w < b then some (.Winner .Black)
    else if b < w then some (.Winner .White)
    else some .Tie
  else none

/-- `game.rs`: the body of the `while !self.is_over()` loop in `Game::run`,
as a single step of the loop. -/
def Game.step (g : Game) : Game :=
  if g.forced_pass then g.advance_turn
  else
    let player := g.current_player
    let choice := player g.board g.current
    if g.board.is_valid_move choice g.current then
      ((g.apply_current choice).2).advance_turn
    else g

/-- The content of a cell as read through `Board::get_field`, with a failed
(out-of-range) read giving an empty cell.  Used to state the spec-side capture
rule. -/
def Board.cellAt (b : Board) (i : Nat) : Option Disc :=
  match b.get_field i with
  | .ok c => c
  | .error _ => none

/-- The sequence of board cells strictly beyond `i` along direction `dir`, one
`next_index` step at a time (with fuel; a ray of the 8x8 board holds at most 7
cells, so fuel 8 is never exhausted). -/
def Board.rayAux (b : Board) (dir : Direction) : Nat → Nat → List Nat
  | 0, _ => []
  | fuel + 1, i =>
    match b.next_index i dir with
    | none => []
    | some j => j :: b.rayAux dir fuel j

/-- The ray of cells from `start` (exclusive) in direction `dir`. -/
def Board.ray (b : Board) (start : Nat) (dir : Direction) : List Nat :=
  b.rayAux dir 8 start

/-- The capture rule in the spec's words, for one direction: take the maximal
contiguous run of opponent discs immediately beyond the placed cell along the
ray; the run is a capture exactly when it is non-empty and the next ray cell
beyond it holds the placing side (a board edge or a non-`opp` cell there yields
nothing, even if a same-side disc lies farther beyond a gap). -/
def Board.specCaptureRun (b : Board) (start : Nat) (disc opp : Disc)
    (dir : Direction) : Option (List Nat) :=
  let r := b.ray start dir
  let run := r.takeWhile (fun i => b.cellAt i = some opp)
  if run.isEmpty then none
  else
    match (r.drop run.length).head? with
    | some j => if b.cellAt j = some disc then some run else none
    | none => none

/-- The spec's "full capture set for a move": the union (in direction order) of
the per-direction capture runs. -/
def Board.specCaptureUnion (b : Board) (start : Nat) (disc opp : Disc) : List Nat :=
  (Direction.ALL.filterMap (b.specCaptureRun start disc opp)).flatten

/-- The number of non-empty cells of the board (the measure claim C6 speaks about). -/
def Board.occupiedCount (b : Board) : Nat :=
  b.squares.countP (fun s => s.isSome)

/-- Decrease measure for a walk along direction `dir`: the number of further
steps possible before the leading edge is reached. -/
def Direction.measure (dir : Direction) (i : Nat) : Nat :=
  if i < 64 then
    match dir with
    | .North | .NorthEast | .NorthWest => i / 8
    | .South | .SouthEast | .SouthWest => 7 - i / 8
    | .East => 7 - i % 8
    | .West => i % 8
  else 0

/-- The loop body of `flips_in_direction`, phrased over the remaining ray: the
opponent run continues from `i`, the accumulated prefix being `acc`. -/
def Board.specRunTail (b : Board) (disc opp : Disc) (dir : Direction) (i : Nat)
    (acc : List Nat) : Option (List Nat) :=
  let r := b.ray i dir
  let run := r.takeWhile (fun k => b.cellAt k = some opp)
  match (r.drop run.length).head? with
  | some j => if b.cellAt j = some disc then some (acc ++ run) else none
  | none => none

/-- A game on the all-empty 64-cell board: neither side has a move, so it is
terminal with equal (zero) disc counts. -/
def tieGame : Game :=
  { board := ⟨List.replicate 64 none⟩, black := fun _ _ => 0,
    white := fun _ _ => 0, current := .Black }

/-- A game where White holds cell 0 and Black holds cell 1, Black to move:
Black has no legal move while White can play at 2, so the position is not
terminal and Black must pass. -/
def passGame : Game :=
  { board := ⟨some .White :: some .Black :: List.replicate 62 none⟩,
    black := fun _ _ => 0, white := fun _ _ => 0, current := .Black }

lemma Board.next_index_indep (b b2 : Board) (i : Nat) (dir : Direction) :
    b.next_index i dir = b2.next_index i dir := rfl

lemma Board.surface_eq : Board.BOARD_SURFACE = 64 := rfl

lemma Board.next_index_none_of_le (b : Board) (i : Nat) (dir : Direction)
    (h : 64 ≤ i) : b.next_index i dir = none := by
  unfold Board.next_index Board.row_col
  have h64 : Board.BOARD_SURFACE ≤ i := by rw [Board.surface_eq]; omega
  simp [h64, Except.toOption]

lemma Direction.measure_next :
    ∀ dir : Direction, ∀ i : Fin 64,
      (Board.next_index ⟨[]⟩ i.val dir).all
        (fun j => decide (j < 64) && decide (dir.measure j < dir.measure i.val)) = true := by
  decide

lemma Direction.measure_blocked :
    ∀ dir : Direction, ∀ i : Fin 64,
      dir.measure i.val ≠ 0 ∨ Board.next_index ⟨[]⟩ i.val dir = none := by
  decide

lemma Board.next_index_some (b : Board) {i j : Nat} {dir : Direction}
    (h : b.next_index i dir = some j) :
    j < 64 ∧ dir.measure j < dir.measure i := by
  have hi : i < 64 := by
    by_contra hge
    rw [b.next_index_none_of_le i dir (by omega)] at h
    exact Option.noConfusion h
  have hfact := Direction.measure_next dir ⟨i, hi⟩
  rw [show Board.next_index ⟨[]⟩ i dir = b.next_index i dir from rfl, h] at hfact
  simpa [Option.all] using hfact

lemma Board.next_index_none_of_measure (b : Board) (i : Nat) (dir : Direction)
    (h : dir.measure i = 0) : b.next_index i dir = none := by
  by_cases hi : i < 64
  · rcases Direction.measure_blocked dir ⟨i, hi⟩ with hne | hnone
    · exact absurd h hne
    · rw [show b.next_index i dir = Board.next_index ⟨[]⟩ i dir from rfl]
      exact hnone
  · exact b.next_index_none_of_le i dir (by omega)

lemma Direction.measure_le_seven (dir : Direction) (i : Nat) : dir.measure i ≤ 7 := by
  cases dir <;>
    · simp only [Direction.measure]
      split <;> omega

lemma Board.rayAux_succ (b : Board) (dir : Direction) (fuel i : Nat) :
    b.rayAux dir (fuel + 1) i =
      match b.next_index i dir with
      | none => []
      | some j => j :: b.rayAux dir fuel j := rfl

lemma Board.rayAux_stable (b : Board) (dir : Direction) :
    ∀ f1 f2 i, dir.measure i ≤ f1 → dir.measure i ≤ f2 →
      b.rayAux dir f1 i = b.rayAux dir f2 i := by
  intro f1
  induction f1 with
  | zero =>
    intro f2 i h1 h2
    have hn := b.next_index_none_of_measure i dir (by omega)
    cases f2 with
    | zero => rfl
    | succ f2 => rw [b.rayAux_succ dir f2 i, hn]; rfl
  | succ f1 ih =>
    intro f2 i h1 h2
    cases f2 with
    | zero =>
      have hn := b.next_index_none_of_measure i dir (by omega)
      rw [b.rayAux_succ dir f1 i, hn]; rfl
    | succ f2 =>
      rw [b.rayAux_succ dir f1 i, b.rayAux_succ dir f2 i]
      cases h : b.next_index i dir with
      | none => rfl
      | some j =>
        have hj := b.next_index_some h
        exact congrArg (fun l => j :: l) (ih f2 j (by omega) (by omega))

lemma Board.ray_cons (b : Board) (start : Nat) (dir : Direction) :
    b.ray start dir =
      match b.next_index start dir with
      | none => []
      | some j => j :: b.ray j dir := by
  unfold Board.ray
  rw [show (8 : Nat) = 7 + 1 from rfl, b.rayAux_succ dir 7 start]
  cases h : b.next_index start dir with
  | none => rfl
  | some j =>
    show j :: b.rayAux dir 7 j = j :: b.rayAux dir (7 + 1) j
    rw [b.rayAux_stable dir 7 (7 + 1) j (Direction.measure_le_seven dir j)
      (le_trans (Direction.measure_le_seven dir j) (by omega))]

lemma Board.rayAux_length_le (b : Board) (dir : Direction) (fuel : Nat) :
    ∀ i, (b.rayAux dir fuel i).length ≤ dir.measure i := by
  induction fuel with
  | zero => intro i; simp [Board.rayAux]
  | succ f ih =>
    intro i
    rw [b.rayAux_succ dir f i]
    cases h : b.next_index i dir with
    | none => simp
    | some j =>
      have hj := b.next_index_some h
      have hlen := ih j
      show (j :: b.rayAux dir f j).length ≤ dir.measure i
      simp only [List.length_cons]
      omega

lemma Board.ray_length_le (b : Board) (start : Nat) (dir : Direction) :
    (b.ray start dir).length ≤ 7 :=
  le_trans (b.rayAux_length_le dir 8 start) (dir.measure_le_seven start)

lemma Board.get_field_ok_iff (b : Board) {i : Nat} {c : Option Disc} :
    b.get_field i = .ok c ↔ b.squares[i]? = some c := by
  unfold Board.get_field
  cases h : b.squares[i]? <;> simp

lemma Board.cellAt_of_get_field (b : Board) {i : Nat} {c : Option Disc}
    (h : b.get_field i = .ok c) : b.cellAt i = c := by
  unfold Board.cellAt
  rw [h]

lemma Board.cellAt_of_toOption_none (b : Board) {i : Nat}
    (h : (b.get_field i).toOption = none) : b.cellAt i = none := by
  unfold Board.cellAt
  cases hg : b.get_field i with
  | ok c => rw [hg] at h; simp [Except.toOption] at h
  | error e => rfl

lemma Board.cellAt_of_toOption_some (b : Board) {i : Nat} {c : Option Disc}
    (h : (b.get_field i).toOption = some c) : b.cellAt i = c := by
  unfold Board.cellAt
  cases hg : b.get_field i with
  | ok c2 =>
    rw [hg] at h
    simp only [Except.toOption] at h
    exact Option.some.inj h
  | error e => rw [hg] at h; simp [Except.toOption] at h

lemma Board.cellAt_some_lt (b : Board) {i : Nat} {d : Disc}
    (h : b.cellAt i = some d) : i < b.squares.length := by
  by_contra hge
  have hq : b.squares[i]? = none := by
    apply List.getElem?_eq_none
    omega
  unfold Board.cellAt Board.get_field at h
  rw [hq] at h
  simp at h

lemma Board.flipsLoop_succ (b : Board) (disc opp : Disc) (dir : Direction)
    (fuel index : Nat) (flips : List Nat) :
    b.flipsLoop disc opp dir (fuel + 1) index flips =
      match b.next_index index dir with
      | none => none
      | some next =>
        match (b.get_field next).toOption with
        | none => none
        | some cell =>
          match cell with
          | some d =>
            if d = opp then b.flipsLoop disc opp dir fuel next (flips ++ [next])
            else if d = disc then some flips
            else none
          | none => none := rfl

lemma Board.flipsLoop_eq_specRunTail (b : Board) (disc opp : Disc) (dir : Direction) :
    ∀ fuel i acc, dir.measure i ≤ fuel →
      b.flipsLoop disc opp dir fuel i acc = b.specRunTail disc opp dir i acc := by
  intro fuel
  induction fuel with
  | zero =>
    intro i acc h
    have hn := b.next_index_none_of_measure i dir (by omega)
    have hray : b.ray i dir = [] := by rw [b.ray_cons i dir, hn]
    unfold Board.specRunTail
    simp [hray, Board.flipsLoop]
  | succ fuel ih =>
    intro i acc h
    rw [b.flipsLoop_succ disc opp dir fuel i acc]
    cases hn : b.next_index i dir with
    | none =>
      have hray : b.ray i dir = [] := by rw [b.ray_cons i dir, hn]
      unfold Board.specRunTail
      simp [hray]
    | some j =>
      have hj := b.next_index_some hn
      have hray : b.ray i dir = j :: b.ray j dir := by rw [b.ray_cons i dir, hn]
      show (match (b.get_field j).toOption with
        | none => none
        | some cell =>
          match cell with
          | some d =>
            if d = opp then b.flipsLoop disc opp dir fuel j (acc ++ [j])
            else if d = disc then some acc
            else none
          | none => none) = b.specRunTail disc opp dir i acc
      cases hc : (b.get_field j).toOption with
      | none =>
        have hcell : b.cellAt j = none := b.cellAt_of_toOption_none hc
        unfold Board.specRunTail
        simp [hray, List.takeWhile_cons_of_neg, hcell]
      | some cell =>
        have hcell : b.cellAt j = cell := b.cellAt_of_toOption_some hc
        cases cell with
        | none =>
          unfold Board.specRunTail
          simp [hray, hcell]
        | some d =>
          show (if d = opp then b.flipsLoop disc opp dir fuel j (acc ++ [j])
            else if d = disc then some acc else none) = b.specRunTail disc opp dir i acc
          by_cases hdo : d = opp
          · subst hdo
            rw [if_pos rfl, ih j (acc ++ [j]) (by omega)]
            unfold Board.specRunTail
            simp only [hray]
            rw [List.takeWhile_cons_of_pos (by simp [hcell])]
            simp only [List.length_cons, List.drop_succ_cons, List.append_assoc,
              List.singleton_append]
          · rw [if_neg hdo]
            unfold Board.specRunTail
            simp only [hray]
            rw [List.takeWhile_cons_of_neg (by simp [hcell, hdo])]
            by_cases hdd : d = disc
            · subst hdd
              simp [hcell]
            · have hnd : ¬ b.cellAt j = some disc := by simp [hcell, hdd]
              simp [hnd, hdd]

lemma Board.flips_in_direction_unfold (b : Board) {disc opp : Disc}
    (hop : disc.opposite = some opp) (start : Nat) (dir : Direction) :
    b.flips_in_direction start disc dir =
      match b.next_index start dir with
      | none => none
      | some index =>
        match (b.get_field index).toOption with
        | none => none
        | some cell =>
          if cell ≠ some opp then none
          else b.flipsLoop disc opp dir 64 index [index] := by
  unfold Board.flips_in_direction
  rw [hop]
  cases hn : b.next_index start dir with
  | none => rfl
  | some index =>
    show ((b.get_field index).toOption >>= fun cell =>
        if cell ≠ some opp then none else b.flipsLoop disc opp dir 64 index [index]) =
      match (b.get_field index).toOption with
      | none => none
      | some cell =>
        if cell ≠ some opp then none else b.flipsLoop disc opp dir 64 index [index]
    cases hc : (b.get_field index).toOption with
    | none => rfl
    | some cell => rfl

lemma Board.flips_in_direction_eq_spec (b : Board) {disc opp : Disc}
    (hop : disc.opposite = some opp) (start : Nat) (dir : Direction) :
    b.flips_in_direction start disc dir = b.specCaptureRun start disc opp dir := by
  rw [b.flips_in_direction_unfold hop start dir]
  unfold Board.specCaptureRun
  cases hn : b.next_index start dir with
  | none =>
    have hray : b.ray start dir = [] := by rw [b.ray_cons start dir, hn]
    simp [hray]
  | some i0 =>
    have hray : b.ray start dir = i0 :: b.ray i0 dir := by rw [b.ray_cons start dir, hn]
    show (match (b.get_field i0).toOption with
      | none => none
      | some cell =>
        if cell ≠ some opp then none
        else b.flipsLoop disc opp dir 64 i0 [i0]) = _
    cases hc : (b.get_field i0).toOption with
    | none =>
      have hcell := b.cellAt_of_toOption_none hc
      have hrun : ((i0 :: b.ray i0 dir).takeWhile (fun k => b.cellAt k = some opp)) = [] := by
        rw [List.takeWhile_cons_of_neg (by simp [hcell])]
      simp [hray, hrun]
    | some cell =>
      have hcell := b.cellAt_of_toOption_some hc
      by_cases hco : cell = some opp
      · subst hco
        show (if some opp ≠ some opp then none
          else b.flipsLoop disc opp dir 64 i0 [i0]) = _
        rw [if_neg (by simp)]
        rw [b.flipsLoop_eq_specRunTail disc opp dir 64 i0 [i0]
          (le_trans (dir.measure_le_seven i0) (by omega))]
        unfold Board.specRunTail
        simp only [hray]
        rw [List.takeWhile_cons_of_pos (by simp [hcell])]
        simp only [List.isEmpty_cons, List.length_cons, List.drop_succ_cons,
          List.singleton_append]
        cases hh : ((b.ray i0 dir).drop
            ((b.ray i0 dir).takeWhile (fun k => b.cellAt k = some opp)).length).head? with
        | none => simp
        | some j => simp
      · show (if cell ≠ some opp then none
          else b.flipsLoop disc opp dir 64 i0 [i0]) = _
        rw [if_pos hco]
        have hrun : ((i0 :: b.ray i0 dir).takeWhile (fun k => b.cellAt k = some opp)) = [] := by
          rw [List.takeWhile_cons_of_neg (by simp [hcell, hco])]
        simp [hray, hrun]

lemma Board.specCaptureRun_some (b : Board) {start : Nat} {disc opp : Disc}
    {dir : Direction} {run : List Nat}
    (h : b.specCaptureRun start disc opp dir = some run) :
    run ≠ [] ∧ run.length ≤ 7 ∧ ∀ i ∈ run, b.cellAt i = some opp := by
  unfold Board.specCaptureRun at h
  by_cases he : ((b.ray start dir).takeWhile (fun k => b.cellAt k = some opp)).isEmpty
  · rw [if_pos he] at h; exact absurd h (by simp)
  · rw [if_neg he] at h
    cases hh : (((b.ray start dir).drop
        ((b.ray start dir).takeWhile (fun k => b.cellAt k = some opp)).length).head?) with
    | none => rw [hh] at h; exact absurd h (by simp)
    | some j =>
      rw [hh] at h
      dsimp only at h
      by_cases hj : b.cellAt j = some disc
      · rw [if_pos hj] at h
        have hrun : run = (b.ray start dir).takeWhile (fun k => b.cellAt k = some opp) :=
          (Option.some.inj h).symm
        subst hrun
        refine ⟨?_, ?_, ?_⟩
        · intro hnil; rw [hnil] at he; simp at he
        · exact le_trans (List.takeWhile_prefix _).length_le (b.ray_length_le start dir)
        · intro i hi
          have hp := List.mem_takeWhile_imp hi
          simpa using hp
      · rw [if_neg hj] at h; exact absurd h (by simp)

lemma Board.allFlipsAux_eq (b : Board) {disc opp : Disc}
    (hop : disc.opposite = some opp) (start : Nat) :
    ∀ dirs acc, acc.length + 7 * dirs.length ≤ 64 →
      b.allFlipsAux start disc dirs acc =
        some (acc ++ (dirs.filterMap (b.specCaptureRun start disc opp)).flatten) := by
  intro dirs
  induction dirs with
  | nil => intro acc h; simp [Board.allFlipsAux]
  | cons dir rest ih =>
    intro acc h
    show (match b.flips_in_direction start disc dir with
      | some flips =>
        if acc.length + flips.length ≤ Board.BOARD_SURFACE then
          b.allFlipsAux start disc rest (acc ++ flips)
        else none
      | none => b.allFlipsAux start disc rest acc) = _
    rw [b.flips_in_direction_eq_spec hop start dir]
    cases hs : b.specCaptureRun start disc opp dir with
    | none =>
      rw [ih acc (by simp at h ⊢; omega)]
      simp [List.filterMap_cons, hs]
    | some f =>
      have hf := b.specCaptureRun_some hs
      have hcap : acc.length + f.length ≤ Board.BOARD_SURFACE := by
        rw [Board.surface_eq]
        simp only [List.length_cons] at h
        omega
      show (if acc.length + f.length ≤ Board.BOARD_SURFACE then
          b.allFlipsAux start disc rest (acc ++ f)
        else none) = _
      rw [if_pos hcap]
      rw [ih (acc ++ f) (by simp only [List.length_append, List.length_cons] at h ⊢; omega)]
      simp [List.filterMap_cons, hs, List.append_assoc]

lemma Board.all_flips_eq (b : Board) {disc opp : Disc}
    (hop : disc.opposite = some opp) (start : Nat) :
    b.all_flips start disc =
      (if (b.specCaptureUnion start disc opp).isEmpty then none
       else some (b.specCaptureUnion start disc opp)) := by
  unfold Board.all_flips
  rw [b.allFlipsAux_eq hop start Direction.ALL [] (by simp [Direction.ALL])]
  unfold Board.specCaptureUnion
  simp

lemma Board.mem_all_flips (b : Board) {disc opp : Disc}
    (hop : disc.opposite = some opp) {start : Nat} {flips : List Nat}
    (h : b.all_flips start disc = some flips) :
    flips ≠ [] ∧ ∀ i ∈ flips, b.cellAt i = some opp := by
  rw [b.all_flips_eq hop start] at h
  by_cases he : (b.specCaptureUnion start disc opp).isEmpty
  · rw [if_pos he] at h; exact absurd h (by simp)
  · rw [if_neg he] at h
    have hu : flips = b.specCaptureUnion start disc opp := (Option.some.inj h).symm
    subst hu
    constructor
    · intro hnil; rw [hnil] at he; simp at he
    · intro i hi
      unfold Board.specCaptureUnion at hi
      rw [List.mem_flatten] at hi
      obtain ⟨l, hl, hil⟩ := hi
      rw [List.mem_filterMap] at hl
      obtain ⟨dir, _, hdir⟩ := hl
      exact (b.specCaptureRun_some hdir).2.2 i hil

lemma Board.flips_in_direction_empty_disc (b : Board) (start : Nat) (dir : Direction) :
    b.flips_in_direction start .Empty dir = none := rfl

lemma Board.all_flips_empty_disc (b : Board) (start : Nat) :
    b.all_flips start .Empty = none := by
  unfold Board.all_flips
  have haux : ∀ dirs acc, b.allFlipsAux start .Empty dirs acc = some acc := by
    intro dirs
    induction dirs with
    | nil => intro acc; rfl
    | cons d rest ih =>
      intro acc
      show (match b.flips_in_direction start .Empty d with
        | some flips =>
          if acc.length + flips.length ≤ Board.BOARD_SURFACE then
            b.allFlipsAux start .Empty rest (acc ++ flips)
          else none
        | none => b.allFlipsAux start .Empty rest acc) = some acc
      rw [b.flips_in_direction_empty_disc start d]
      exact ih acc
  rw [haux Direction.ALL []]
  rfl

lemma Board.specCaptureRun_none_of_le (b : Board) {start : Nat} (h : 64 ≤ start)
    (disc opp : Disc) (dir : Direction) :
    b.specCaptureRun start disc opp dir = none := by
  have hray : b.ray start dir = [] := by
    rw [b.ray_cons start dir, b.next_index_none_of_le start dir h]
  unfold Board.specCaptureRun
  simp [hray]

lemma Board.all_flips_none_of_le (b : Board) {start : Nat} (h : 64 ≤ start)
    (disc : Disc) : b.all_flips start disc = none := by
  cases hd : disc.opposite with
  | none =>
    cases disc with
    | Black => simp [Disc.opposite] at hd
    | White => simp [Disc.opposite] at hd
    | Empty => exact b.all_flips_empty_disc start
  | some opp =>
    rw [b.all_flips_eq hd start]
    have hu : b.specCaptureUnion start disc opp = [] := by
      unfold Board.specCaptureUnion
      simp [Direction.ALL, List.filterMap_cons, b.specCaptureRun_none_of_le h disc opp]
    simp [hu]

lemma countP_set_balance {α : Type} (p : α → Bool) :
    ∀ (l : List α) (i : Nat) (a : α) (h : i < l.length),
      (l.set i a).countP p + (if p (l.get ⟨i, h⟩) then 1 else 0) =
        l.countP p + (if p a then 1 else 0) := by
  intro l
  induction l with
  | nil => intro i a h; simp at h
  | cons x xs ih =>
    intro i a h
    cases i with
    | zero =>
      by_cases hx : p x <;> by_cases ha : p a <;>
        simp [List.countP_cons, hx, ha]
    | succ i =>
      have hi : i < xs.length := by simpa using h
      have hrec := ih i a hi
      simp only [List.get_eq_getElem] at hrec
      by_cases hx : p x <;>
        simp [List.countP_cons, hx, List.set_cons_succ, List.get_eq_getElem] <;> omega

lemma Board.set_board_length (b : Board) (i : Nat) (d : Disc) :
    ((b.set_field i d).2).squares.length = b.squares.length := by
  unfold Board.set_field
  split <;> simp

lemma Board.set_field_ok (b : Board) {i : Nat} (h : i < b.squares.length) (d : Disc) :
    b.set_field i d = (.ok (), ⟨b.squares.set i (some d)⟩) := by
  unfold Board.set_field
  rw [if_pos h]

lemma Board.cellAt_set (b : Board) {i : Nat} (h : i < b.squares.length) (d : Disc)
    (k : Nat) :
    ((⟨b.squares.set i (some d)⟩ : Board)).cellAt k =
      if k = i then some d else b.cellAt k := by
  by_cases hk : k = i
  · subst hk
    rw [if_pos rfl]
    unfold Board.cellAt Board.get_field
    rw [List.getElem?_set_self (by simpa using h)]
  · rw [if_neg hk]
    unfold Board.cellAt Board.get_field
    rw [List.getElem?_set_ne (fun he => hk he.symm)]

lemma Board.occupiedCount_set_some (b : Board) {i : Nat} {d0 : Disc}
    (h : b.cellAt i = some d0) (d : Disc) :
    ((⟨b.squares.set i (some d)⟩ : Board)).occupiedCount = b.occupiedCount := by
  have hlt : i < b.squares.length := b.cellAt_some_lt h
  have hget : b.squares.get ⟨i, hlt⟩ = some d0 := by
    unfold Board.cellAt Board.get_field at h
    rw [List.getElem?_eq_getElem hlt] at h
    simpa [List.get_eq_getElem] using h
  have hbal := countP_set_balance (fun s => s.isSome) b.squares i (some d) hlt
  unfold Board.occupiedCount
  rw [hget] at hbal
  simpa using hbal

lemma Board.occupiedCount_set_none (b : Board) {i : Nat}
    (hlt : i < b.squares.length) (h : b.cellAt i = none) (d : Disc) :
    ((⟨b.squares.set i (some d)⟩ : Board)).occupiedCount = b.occupiedCount + 1 := by
  have hget : b.squares.get ⟨i, hlt⟩ = none := by
    unfold Board.cellAt Board.get_field at h
    rw [List.getElem?_eq_getElem hlt] at h
    simpa [List.get_eq_getElem] using h
  have hbal := countP_set_balance (fun s => s.isSome) b.squares i (some d) hlt
  unfold Board.occupiedCount
  rw [hget] at hbal
  simpa using hbal

lemma Board.get_field_ok_lt (b : Board) {i : Nat} {c : Option Disc}
    (h : b.get_field i = .ok c) : i < b.squares.length := by
  rw [Board.get_field_ok_iff] at h
  by_contra hge
  rw [List.getElem?_eq_none (by omega)] at h
  exact Option.noConfusion h

lemma Board.applyFlips_spec (disc : Disc) :
    ∀ (l : List Nat) (bb : Board), (∀ i ∈ l, ∃ d0, bb.cellAt i = some d0) →
      (bb.applyFlips disc l).1 = .ok () ∧
      (bb.applyFlips disc l).2.squares.length = bb.squares.length ∧
      (bb.applyFlips disc l).2.occupiedCount = bb.occupiedCount ∧
      (∀ k, (bb.applyFlips disc l).2.cellAt k =
        if k ∈ l then some disc else bb.cellAt k) := by
  intro l
  induction l with
  | nil =>
    intro bb _
    refine ⟨rfl, rfl, rfl, ?_⟩
    intro k
    simp [Board.applyFlips]
  | cons i rest ih =>
    intro bb h
    obtain ⟨d0, hd0⟩ := h i (List.mem_cons_self i rest)
    have hlt : i < bb.squares.length := bb.cellAt_some_lt hd0
    have hstep : bb.applyFlips disc (i :: rest) =
        ((⟨bb.squares.set i (some disc)⟩ : Board)).applyFlips disc rest := by
      show (match bb.set_field i disc with
        | (.ok _, b2) => b2.applyFlips disc rest
        | (.error e, b2) => (.error e, b2)) = _
      rw [bb.set_field_ok hlt disc]
    set b2 : Board := ⟨bb.squares.set i (some disc)⟩ with hb2
    have hcell2 : ∀ k, b2.cellAt k = if k = i then some disc else bb.cellAt k :=
      bb.cellAt_set hlt disc
    have hpre : ∀ j ∈ rest, ∃ d1, b2.cellAt j = some d1 := by
      intro j hj
      rw [hcell2 j]
      by_cases hji : j = i
      · exact ⟨disc, by rw [if_pos hji]⟩
      · obtain ⟨d1, hd1⟩ := h j (List.mem_cons_of_mem i hj)
        exact ⟨d1, by rw [if_neg hji]; exact hd1⟩
    obtain ⟨hok, hlen, hocc, hcells⟩ := ih b2 hpre
    have hlen2 : b2.squares.length = bb.squares.length := by
      rw [hb2]; simp
    have hocc2 : b2.occupiedCount = bb.occupiedCount :=
      bb.occupiedCount_set_some hd0 disc
    refine ⟨?_, ?_, ?_, ?_⟩
    · rw [hstep]; exact hok
    · rw [hstep, hlen, hlen2]
    · rw [hstep, hocc, hocc2]
    · intro k
      rw [hstep, hcells k, hcell2 k]
      by_cases hkr : k ∈ rest
      · rw [if_pos hkr, if_pos (List.mem_cons_of_mem i hkr)]
      · rw [if_neg hkr]
        by_cases hki : k = i
        · rw [if_pos hki, if_pos (by rw [hki]; exact List.mem_cons_self i rest)]
        · rw [if_neg hki, if_neg (by simp [List.mem_cons, hki, hkr])]

lemma Board.apply_move_ok (b : Board) {start : Nat} {disc : Disc} {flips : List Nat}
    (hg : b.get_field start = .ok none) (hf : b.all_flips start disc = some flips) :
    (b.apply_move start disc).1 = .ok () ∧
    (b.apply_move start disc).2.occupiedCount = b.occupiedCount + 1 ∧
    (∀ k, (b.apply_move start disc).2.cellAt k =
      if k = start ∨ k ∈ flips then some disc else b.cellAt k) := by
  have hlt : start < b.squares.length := b.get_field_ok_lt hg
  have hcs : b.cellAt start = none := b.cellAt_of_get_field hg
  obtain ⟨opp, hop⟩ : ∃ opp, disc.opposite = some opp := by
    cases hd : disc.opposite with
    | some opp => exact ⟨opp, rfl⟩
    | none =>
      exfalso
      cases disc with
      | Black => simp [Disc.opposite] at hd
      | White => simp [Disc.opposite] at hd
      | Empty => rw [b.all_flips_empty_disc start] at hf; exact Option.noConfusion hf
  have hmem := b.mem_all_flips hop hf
  have hstep : b.apply_move start disc =
      ((⟨b.squares.set start (some disc)⟩ : Board)).applyFlips disc flips := by
    unfold Board.apply_move
    rw [hg, hf, b.set_field_ok hlt disc]
  set b2 : Board := ⟨b.squares.set start (some disc)⟩ with hb2
  have hcell2 : ∀ k, b2.cellAt k = if k = start then some disc else b.cellAt k :=
    b.cellAt_set hlt disc
  have hpre : ∀ i ∈ flips, ∃ d1, b2.cellAt i = some d1 := by
    intro i hi
    have hci := hmem.2 i hi
    rw [hcell2 i]
    by_cases his : i = start
    · exact ⟨disc, by rw [if_pos his]⟩
    · exact ⟨opp, by rw [if_neg his]; exact hci⟩
  obtain ⟨hok, _, hocc, hcells⟩ := Board.applyFlips_spec disc flips b2 hpre
  refine ⟨?_, ?_, ?_⟩
  · rw [hstep]; exact hok
  · rw [hstep, hocc]
    exact b.occupiedCount_set_none hlt hcs disc
  · intro k
    rw [hstep, hcells k, hcell2 k]
    by_cases hkf : k ∈ flips
    · rw [if_pos hkf, if_pos (Or.inr hkf)]
    · rw [if_neg hkf]
      by_cases hks : k = start
      · rw [if_pos hks, if_pos (Or.inl hks)]
      · rw [if_neg hks, if_neg (by simp [hks, hkf])]

lemma Board.apply_move_error_frame (b : Board) (start : Nat) (disc : Disc)
    {e : BoardError} (h : (b.apply_move start disc).1 = .error e) :
    (b.apply_move start disc).2 = b := by
  cases hg : b.get_field start with
  | error e2 =>
    unfold Board.apply_move
    rw [hg]
  | ok c =>
    cases c with
    | some d =>
      unfold Board.apply_move
      rw [hg]
    | none =>
      cases hf : b.all_flips start disc with
      | none =>
        unfold Board.apply_move
        rw [hg, hf]
      | some flips =>
        have := (b.apply_move_ok hg hf).1
        rw [this] at h
        exact Except.noConfusion h

lemma Board.is_valid_move_iff (b : Board) (start : Nat) (disc : Disc) :
    b.is_valid_move start disc = true ↔
      (b.get_field start = .ok none ∧ (b.all_flips start disc).isSome) := by
  unfold Board.is_valid_move
  cases hg : b.get_field start with
  | error e => simp
  | ok c =>
    cases c with
    | some d => simp
    | none => simp

lemma Board.apply_move_fst_ok_iff (b : Board) (start : Nat) (disc : Disc) :
    (b.apply_move start disc).1 = .ok () ↔
      (b.get_field start = .ok none ∧ (b.all_flips start disc).isSome) := by
  constructor
  · intro h
    cases hg : b.get_field start with
    | error e =>
      exfalso
      unfold Board.apply_move at h
      rw [hg] at h
      simp at h
    | ok c =>
      cases c with
      | some d =>
        exfalso
        unfold Board.apply_move at h
        rw [hg] at h
        simp at h
      | none =>
        cases hf : b.all_flips start disc with
        | none =>
          exfalso
          unfold Board.apply_move at h
          rw [hg, hf] at h
          simp at h
        | some flips => exact ⟨rfl, rfl⟩
  · rintro ⟨hg, hf⟩
    obtain ⟨flips, hflips⟩ := Option.isSome_iff_exists.mp hf
    exact (b.apply_move_ok hg hflips).1

lemma Board.is_valid_move_false_of_le (b : Board) {i : Nat} (h : 64 ≤ i)
    (disc : Disc) : b.is_valid_move i disc = false := by
  unfold Board.is_valid_move
  cases hg : b.get_field i with
  | error e => rfl
  | ok c =>
    cases c with
    | some d => rfl
    | none =>
      show (b.all_flips i disc).isSome = false
      rw [b.all_flips_none_of_le h disc]
      rfl

lemma Board.valid_moves_isEmpty_iff (b : Board) (disc : Disc) :
    (b.valid_moves disc).isEmpty = true ↔
      ∀ i, b.is_valid_move i disc = false := by
  unfold Board.valid_moves
  rw [List.isEmpty_iff, List.filter_eq_nil_iff]
  constructor
  · intro h i
    by_cases hi : i < Board.BOARD_SURFACE
    · have := h i (List.mem_range.mpr hi)
      simpa using this
    · exact b.is_valid_move_false_of_le (by rw [Board.surface_eq] at hi; omega) disc
  · intro h i _
    simp [h i]

lemma Direction.mem_ALL (dir : Direction) : dir ∈ Direction.ALL := by
  cases dir <;> simp [Direction.ALL]

lemma Board.specCaptureUnion_ne_nil_iff (b : Board) (start : Nat) (disc opp : Disc) :
    b.specCaptureUnion start disc opp ≠ [] ↔
      ∃ dir, b.specCaptureRun start disc opp dir ≠ none := by
  unfold Board.specCaptureUnion
  constructor
  · intro h
    by_contra hall
    push_neg at hall
    apply h
    have hfm : Direction.ALL.filterMap (b.specCaptureRun start disc opp) = [] := by
      rw [List.filterMap_eq_nil_iff]
      intro dir _
      cases hs : b.specCaptureRun start disc opp dir with
      | none => rfl
      | some run => rw [hall dir] at hs; exact Option.noConfusion hs
    rw [hfm]
    rfl
  · rintro ⟨dir, hdir⟩
    cases hs : b.specCaptureRun start disc opp dir with
    | none => exact absurd hs hdir
    | some run =>
      have hrun := (b.specCaptureRun_some hs).1
      intro hnil
      have hmem : run ∈ Direction.ALL.filterMap (b.specCaptureRun start disc opp) :=
        List.mem_filterMap.mpr ⟨dir, dir.mem_ALL, hs⟩
      exact hrun (List.flatten_eq_nil_iff.mp hnil run hmem)

lemma Game.is_over_iff (g : Game) :
    g.is_over = true ↔
      ((∀ i, g.board.is_valid_move i .Black = false) ∧
       (∀ i, g.board.is_valid_move i .White = false)) := by
  unfold Game.is_over
  rw [Bool.and_eq_true, Board.valid_moves_isEmpty_iff, Board.valid_moves_isEmpty_iff]

lemma Game.outcome_none_iff (g : Game) : g.outcome = none ↔ g.is_over = false := by
  unfold Game.outcome
  by_cases ho : g.is_over
  · rw [if_pos ho]
    constructor
    · intro h
      exfalso
      revert h
      dsimp only
      split
      · simp
      · split <;> simp
    · intro h
      rw [h] at ho
      exact absurd ho (by simp)
  · rw [if_neg ho]
    rw [Bool.not_eq_true] at ho
    simp [ho]

lemma Game.outcome_cases (g : Game) (ho : g.is_over = true) :
    ((g.outcome = some (.Winner .Black) ↔
        g.board.count_discs .White < g.board.count_discs .Black) ∧
     (g.outcome = some (.Winner .White) ↔
        g.board.count_discs .Black < g.board.count_discs .White) ∧
     (g.outcome = some .Tie ↔
        g.board.count_discs .Black = g.board.count_discs .White)) := by
  unfold Game.outcome
  rw [if_pos ho]
  dsimp only
  by_cases h1 : g.board.count_discs .White < g.board.count_discs .Black
  · rw [if_pos h1]
    refine ⟨⟨fun _ => h1, fun _ => rfl⟩, ⟨fun h => by simp at h, fun h => absurd h (by omega)⟩,
      ⟨fun h => by simp at h, fun h => absurd h1 (by omega)⟩⟩
  · rw [if_neg h1]
    by_cases h2 : g.board.count_discs .Black < g.board.count_discs .White
    · rw [if_pos h2]
      refine ⟨⟨fun h => by simp at h, fun h => absurd h (by omega)⟩, ⟨fun _ => h2, fun _ => rfl⟩,
        ⟨fun h => by simp at h, fun h => absurd h2 (by omega)⟩⟩
    · rw [if_neg h2]
      refine ⟨⟨fun h => by simp at h, fun h => absurd h (by omega)⟩,
        ⟨fun h => by simp at h, fun h => absurd h (by omega)⟩,
        ⟨fun _ => by omega, fun _ => rfl⟩⟩

lemma Board.width_eq : Board.BOARD_WIDTH = 8 := rfl

lemma Board.height_eq : Board.BOARD_HEIGHT = 8 := rfl

/-- C5: the claim says `Disc` is a two-valued type {Black, White} with a total
involutive `opposite : Disc -> Disc`.  The code's `Disc` has a third value
`Empty`, and `opposite` has type `Disc -> Option<Disc>`, returning no disc at
all at the failing input `Disc::Empty`; on Black and White the involution does
hold.  The rest of the crate (`board.rs`, `game.rs`) consumes `opposite()` as a
plain `Disc` and matches `Disc` exhaustively over Black/White only, so the
spec's two-valued reading is the evident intent and `disc.rs` the slip. -/
theorem disc_duality_code_bug :
    (Disc.Empty ≠ .Black ∧ Disc.Empty ≠ .White) ∧
    Disc.opposite .Empty = none ∧
    (Disc.opposite .Black = some .White ∧ Disc.opposite .White = some .Black) := by
  decide

/-- C9: coordinate conversion is a bijection on the valid domain
(`index(row_col(i)) = i` for `i < 64` and `row_col(index(r,c)) = (r,c)` for
`r,c < 8`), and any out-of-range row, column or index yields `OutOfBounds`
rather than a clamp or wraparound. -/
theorem coords_bijection (b : Board) (i row col : Nat) :
    (i < 64 → (b.row_col i).bind (fun rc => b.index rc.1 rc.2) = .ok i) ∧
    (row < 8 → col < 8 → (b.index row col).bind (fun j => b.row_col j) = .ok (row, col)) ∧
    (8 ≤ row ∨ 8 ≤ col → b.index row col = .error .OutOfBounds) ∧
    (64 ≤ i → b.row_col i = .error .OutOfBounds) := by
  refine ⟨?_, ?_, ?_, ?_⟩
  · intro hi
    unfold Board.row_col Board.index
    rw [Board.surface_eq, Board.width_eq, Board.height_eq]
    rw [if_neg (by omega)]
    simp only [Except.bind]
    rw [if_neg (by omega), if_neg (by omega)]
    have hsplit : 8 * (i / 8) + i % 8 = i := by omega
    rw [hsplit]
  · intro hr hc
    unfold Board.index Board.row_col
    rw [Board.surface_eq, Board.width_eq, Board.height_eq]
    rw [if_neg (by omega), if_neg (by omega)]
    simp only [Except.bind]
    rw [if_neg (by omega)]
    have h1 : (8 * row + col) / 8 = row := by omega
    have h2 : (8 * row + col) % 8 = col := by omega
    rw [h1, h2]
  · intro h
    unfold Board.index
    rw [Board.width_eq, Board.height_eq]
    rcases h with h | h
    · rw [if_pos (by omega)]
    · by_cases h8 : 8 ≤ row
      · rw [if_pos (by omega)]
      · rw [if_neg (by omega), if_pos (by omega)]
  · intro h
    unfold Board.row_col
    rw [Board.surface_eq]
    rw [if_pos (by omega)]

theorem coords_bijection_witness :
    ((Board.new.row_col 19).bind (fun rc => Board.new.index rc.1 rc.2) = .ok 19) ∧
    ((Board.new.index 2 3).bind (fun j => Board.new.row_col j) = .ok (2, 3)) ∧
    (Board.new.index 8 0 = .error .OutOfBounds) ∧
    (Board.new.row_col 64 = .error .OutOfBounds) :=
  ⟨(coords_bijection Board.new 19 2 3).1 (by decide),
   (coords_bijection Board.new 19 2 3).2.1 (by decide) (by decide),
   (coords_bijection Board.new 19 8 0).2.2.1 (Or.inl (by decide)),
   (coords_bijection Board.new 64 8 0).2.2.2 (by decide)⟩

/-- C1: for a placing side with an opposite (Black or White), every direction's
capture computed by `flips_in_direction` is exactly the spec's rule — the
maximal adjacent run of opponent discs, valid only when non-empty and closed by
a same-side disc, with nothing captured on an edge or empty-cell ending — and
`all_flips` is the union (in direction order) of those runs over all 8
directions, yielding a capture set exactly when that union is non-empty. -/
theorem capture_characterization (b : Board) (disc opp : Disc)
    (hop : disc.opposite = some opp) (start : Nat) :
    (∀ dir, b.flips_in_direction start disc dir = b.specCaptureRun start disc opp dir) ∧
    (b.all_flips start disc =
      if (b.specCaptureUnion start disc opp).isEmpty then none
      else some (b.specCaptureUnion start disc opp)) ∧
    ((b.all_flips start disc).isSome = true ↔
      b.specCaptureUnion start disc opp ≠ []) := by
  refine ⟨fun dir => b.flips_in_direction_eq_spec hop start dir,
    b.all_flips_eq hop start, ?_⟩
  rw [b.all_flips_eq hop start]
  by_cases he : (b.specCaptureUnion start disc opp).isEmpty
  · rw [if_pos he]
    simp [List.isEmpty_iff.mp he]
  · rw [if_neg he]
    have hne : b.specCaptureUnion start disc opp ≠ [] :=
      fun hn => he (List.isEmpty_iff.mpr hn)
    simp [hne]

theorem capture_characterization_witness :
    Board.new.flips_in_direction 19 .Black Direction.South =
      Board.new.specCaptureRun 19 .Black .White Direction.South :=
  (capture_characterization Board.new .Black .White rfl 19).1 Direction.South

/-- C2: for a side with an opposite (Black or White), `is_valid_move i side`
is true exactly when cell `i` reads as empty and some direction yields a
non-empty bounded sandwich (a capture run in the sense of C1); and for every
out-of-bounds index (64 or more) it returns false rather than erroring. -/
theorem is_valid_move_characterization (b : Board) (disc opp : Disc)
    (hop : disc.opposite = some opp) (i : Nat) :
    (b.is_valid_move i disc = true ↔
      (b.get_field i = .ok none ∧ ∃ dir, b.specCaptureRun i disc opp dir ≠ none)) ∧
    (64 ≤ i → b.is_valid_move i disc = false) := by
  constructor
  · rw [b.is_valid_move_iff i disc]
    constructor
    · rintro ⟨hg, hf⟩
      refine ⟨hg, ?_⟩
      rw [← b.specCaptureUnion_ne_nil_iff i disc opp]
      rw [b.all_flips_eq hop i] at hf
      by_cases he : (b.specCaptureUnion i disc opp).isEmpty
      · rw [if_pos he] at hf
        exact absurd hf (by simp)
      · exact fun hn => he (List.isEmpty_iff.mpr hn)
    · rintro ⟨hg, hdir⟩
      refine ⟨hg, ?_⟩
      rw [b.all_flips_eq hop i]
      have hne := (b.specCaptureUnion_ne_nil_iff i disc opp).mpr hdir
      rw [if_neg (fun he => hne (List.isEmpty_iff.mp he))]
      rfl
  · intro h
    exact b.is_valid_move_false_of_le h disc

theorem is_valid_move_characterization_witness :
    (Board.new.is_valid_move 19 .Black = true ↔
      (Board.new.get_field 19 = .ok none ∧
       ∃ dir, Board.new.specCaptureRun 19 .Black .White dir ≠ none)) ∧
    Board.new.is_valid_move 100 .Black = false :=
  ⟨(is_valid_move_characterization Board.new .Black .White rfl 19).1,
   (is_valid_move_characterization Board.new .Black .White rfl 100).2 (by decide)⟩

/-- C10: the legality query and the mutator agree on every board, index and
side in {Black, White}: `is_valid_move` accepts exactly the moves on which
`apply_move` succeeds. -/
theorem is_valid_iff_apply_ok (b : Board) (i : Nat) (d : Disc)
    (hd : d = .Black ∨ d = .White) :
    b.is_valid_move i d = true ↔ (b.apply_move i d).1 = .ok () := by
  rw [b.is_valid_move_iff i d, b.apply_move_fst_ok_iff i d]

theorem is_valid_iff_apply_ok_witness :
    Board.new.is_valid_move 19 .Black = true ↔
      (Board.new.apply_move 19 .Black).1 = .ok () :=
  is_valid_iff_apply_ok Board.new 19 .Black (Or.inl rfl)

/-- C3: whenever `apply_move` returns an error (OutOfBounds, SquareOccupied or
InvalidMove), the board it leaves behind is structurally equal to the board it
was given — no partial placement or flip is observable on any failure path. -/
theorem apply_move_atomicity (b : Board) (start : Nat) (disc : Disc)
    (e : BoardError) (h : (b.apply_move start disc).1 = .error e) :
    (b.apply_move start disc).2 = b :=
  b.apply_move_error_frame start disc h

theorem apply_move_atomicity_witness :
    (Board.new.apply_move 35 .Black).1 = .error .SquareOccupied ∧
    (Board.new.apply_move 35 .Black).2 = Board.new :=
  ⟨rfl, apply_move_atomicity Board.new 35 .Black .SquareOccupied rfl⟩

/-- C4 counterexample: on the opening board, cell 35 is occupied and captures
nothing for Black in any direction (`all_flips` is `none`), yet `apply_move`
reports `SquareOccupied` and not the `InvalidMove` the claim requires: the
occupancy check runs before the legality check. -/
theorem occupied_without_capture_counterexample :
    Board.new.all_flips 35 .Black = none ∧
    (Board.new.apply_move 35 .Black).1 = .error .SquareOccupied ∧
    (Board.new.apply_move 35 .Black).1 ≠ .error .InvalidMove :=
  ⟨by decide, rfl, fun h => BoardError.noConfusion (Except.error.inj h)⟩

/-- C4 amended: `apply_move` reports `SquareOccupied` for every in-bounds
occupied target cell, whether or not the cell would capture in some
direction — the occupancy check runs before the legality check. -/
theorem apply_move_occupied_diagnostic (b : Board) (start : Nat) (disc d0 : Disc)
    (hocc : b.get_field start = .ok (some d0)) :
    (b.apply_move start disc).1 = .error .SquareOccupied := by
  unfold Board.apply_move
  rw [hocc]

theorem apply_move_occupied_diagnostic_witness :
    (Board.new.apply_move 35 .Black).1 = .error .SquareOccupied :=
  apply_move_occupied_diagnostic Board.new 35 .Black .Black rfl

/-- C6 counterexample: Black's opening move at 19 succeeds with capture set
`[27]` (k = 1), but the number of non-empty cells goes from 4 to 5 — a change
of exactly 1, not the 1 + k = 2 the claim requires. -/
theorem occupied_count_delta_counterexample :
    Board.new.all_flips 19 .Black = some [27] ∧
    (Board.new.apply_move 19 .Black).1 = .ok () ∧
    Board.new.occupiedCount = 4 ∧
    (Board.new.apply_move 19 .Black).2.occupiedCount = 5 :=
  ⟨by decide, rfl, by decide, by decide⟩

/-- C6 amended: a successful `apply_move` whose capture set `flips` has size
k = `flips.length` (k ≥ 1) changes the number of non-empty cells by exactly 1
(the placement; flips only recolor), and every captured cell changes color —
it held the opponent's disc before and holds the mover's disc after — and
never becomes empty. -/
theorem apply_move_count_delta (b : Board) (disc opp : Disc)
    (hop : disc.opposite = some opp) (start : Nat) (flips : List Nat)
    (hf : b.all_flips start disc = some flips)
    (hok : (b.apply_move start disc).1 = .ok ()) :
    (b.apply_move start disc).2.occupiedCount = b.occupiedCount + 1 ∧
    1 ≤ flips.length ∧
    opp ≠ disc ∧
    (∀ i ∈ flips, b.cellAt i = some opp ∧
      (b.apply_move start disc).2.cellAt i = some disc) := by
  have hg : b.get_field start = .ok none :=
    ((b.apply_move_fst_ok_iff start disc).mp hok).1
  obtain ⟨h1, h2, h3⟩ := b.apply_move_ok hg hf
  have hmem := b.mem_all_flips hop hf
  refine ⟨h2, ?_, ?_, ?_⟩
  · exact List.length_pos.mpr hmem.1
  · cases disc with
    | Black =>
      have hw : Disc.White = opp := Option.some.inj hop
      rw [← hw]
      decide
    | White =>
      have hb : Disc.Black = opp := Option.some.inj hop
      rw [← hb]
      decide
    | Empty => exact absurd hop (by simp [Disc.opposite])
  · intro i hi
    refine ⟨hmem.2 i hi, ?_⟩
    rw [h3 i, if_pos (Or.inr hi)]

theorem apply_move_count_delta_witness :
    (Board.new.apply_move 19 .Black).2.occupiedCount = Board.new.occupiedCount + 1 ∧
    Board.new.cellAt 27 = some .White ∧
    (Board.new.apply_move 19 .Black).2.cellAt 27 = some .Black := by
  have h := apply_move_count_delta Board.new .Black .White rfl 19 [27] (by decide) rfl
  exact ⟨h.1, (h.2.2.2 27 (by decide)).1, (h.2.2.2 27 (by decide)).2⟩

/-- C7: the game is over exactly when neither Black nor White has any legal
move (not merely the side to move); `outcome` is defined (`some`) exactly in
that terminal state, and then yields `Winner Black` iff Black holds strictly
more discs than White, `Winner White` iff strictly fewer, and `Tie` iff the
counts are equal. -/
theorem outcome_characterization (g : Game) :
    (g.is_over = true ↔
      ((∀ i, g.board.is_valid_move i .Black = false) ∧
       (∀ i, g.board.is_valid_move i .White = false))) ∧
    (g.outcome = none ↔ g.is_over = false) ∧
    (g.is_over = true →
      ((g.outcome = some (.Winner .Black) ↔
          g.board.count_discs .White < g.board.count_discs .Black) ∧
       (g.outcome = some (.Winner .White) ↔
          g.board.count_discs .Black < g.board.count_discs .White) ∧
       (g.outcome = some .Tie ↔
          g.board.count_discs .Black = g.board.count_discs .White))) :=
  ⟨g.is_over_iff, g.outcome_none_iff, g.outcome_cases⟩

theorem outcome_characterization_witness : tieGame.outcome = some .Tie :=
  (((outcome_characterization tieGame).2.2 (by decide)).2.2).mpr (by decide)

/-- C8: when the game is not over and the side to move has no available move,
one iteration of the run loop performs a forced pass: it flips `current` to
its opposite, leaves every cell of the board unchanged, and does not consult
either player capability — the step is the same whatever player functions are
installed. -/
theorem forced_pass_step (g : Game) (hover : g.is_over = false)
    (hfp : g.forced_pass = true) (opp : Disc)
    (hop : g.current.opposite = some opp) :
    (g.step).board = g.board ∧ (g.step).current = opp ∧
    (∀ pb pw : Player,
      ({ g with black := pb, white := pw } : Game).step =
        { g with black := pb, white := pw, current := opp }) := by
  have hstep : ∀ pb pw : Player,
      ({ g with black := pb, white := pw } : Game).step =
        { g with black := pb, white := pw, current := opp } := by
    intro pb pw
    unfold Game.step
    rw [if_pos (show ({ g with black := pb, white := pw } : Game).forced_pass = true
      from hfp)]
    unfold Game.advance_turn
    show ({ g with black := pb, white := pw, current := g.current.opposite.getD g.current } : Game) = { g with black := pb, white := pw, current := opp }
    rw [hop]
    rfl
  have h0 : g.step = { g with current := opp } := hstep g.black g.white
  refine ⟨?_, ?_, hstep⟩
  · rw [h0]
  · rw [h0]

theorem forced_pass_step_witness :
    (passGame.step).board = passGame.board ∧ (passGame.step).current = .White := by
  have h := forced_pass_step passGame (by decide) (by decide) .White rfl
  exact ⟨h.1, h.2.1⟩
